import Mathlib

/-!
Verification of the structured-text translation core of the
datocms-plugin-ai-translations repository.

The development shallowly embeds:

* `src/utils/translation/StructuredTextTranslation.ts`
  (`ensureArrayLengthsMatch`, the batch-building loop, the per-batch
  response-processing loop and the orchestrator
  `translateStructuredTextValue`),
* `src/lib/openaiProxy.ts` (`chatComplete` with its retry loop and
  response-field extraction),
* `src/utils/clients.ts` (the locale-job creation loop, the worker pool
  `runPool`, and the pending-write map `queueFieldWrite` / `flushWrites`).

Remote services are modelled as oracles: the proxy response for the k-th
batch is an arbitrary function of k, and the generic field-value
translator (`translateFieldValue` of `TranslateField.ts`, which is not
part of the embedded sources) is an arbitrary function on block-node
lists that may also fail.

Note on the embedded control flow of `translateStructuredTextValue`: the
distributed source text of the batches loop carries a leftover duplicate
`catch` block from the pre-batching revision of the file and does not
parse as written; the embedding follows the only well-formed reading,
which is also the one the surrounding code requires (the accumulator
`allTranslated` is filled across all batches by the loop, and length
reconciliation, reassembly, block re-insertion and re-wrapping run once
per field after the loop, all inside the outer try whose catch returns
the working value).
-/

/-! ## String constants of the source -/

def blockTag : String := "block"

def emptyStr : String := ""

def spaceStr : String := " "

def helloStr : String := "hello"

def xStr : String := "X"

def abStr : String := "ab"

def translatedMark : String := "translated"

def choicesKey : String := "choices"

def messageKey : String := "message"

def contentKey : String := "content"

def textKey : String := "text"

def outputTextKey : String := "output_text"

def outputKey : String := "output"

/-! ## Structured-text nodes

A DatoCMS structured-text node (`StructuredTextNode` in
`StructuredTextTranslation.ts`) is a bag of attributes with a `type`
discriminator; the attributes relevant to the embedded code are `type`,
`value`, `id`, `originalIndex` and the nested children. -/

mutual

inductive Node : Type where
  | mk (ty : Option String) (va : Option String) (idAttr : Option String)
       (origIdx : Option Nat) (children : NodeList)

inductive NodeList : Type where
  | nil
  | cons (head : Node) (tail : NodeList)

end

def Node.ty : Node → Option String
  | .mk t _ _ _ _ => t

def Node.va : Node → Option String
  | .mk _ v _ _ _ => v

def Node.idAttr : Node → Option String
  | .mk _ _ i _ _ => i

def Node.origIdx : Node → Option Nat
  | .mk _ _ _ oi _ => oi

def Node.children : Node → NodeList
  | .mk _ _ _ _ cs => cs

/-- Is this a block node (`node?.type === 'block'`)? -/
def isBlockNode (n : Node) : Bool := n.ty == some blockTag

/-- Models `{ ...node, originalIndex: index }` in the `blockNodes` reduce. -/
def setOrigIdx (n : Node) (i : Nat) : Node :=
  match n with
  | .mk t v idA _ cs => .mk t v idA (some i) cs

/-- Models `({ originalIndex, ...rest }) => rest`: drop the top-level
`originalIndex` attribute only. -/
def clearOrigIdx (n : Node) : Node :=
  match n with
  | .mk t v idA _ cs => .mk t v idA none cs

/-! ## Tree utilities imported from `./utils`

The file `src/utils/translation/utils.ts` is not among the distributed
sources, so these four helpers are modelled from spec §4.1. -/

mutual

/-- Modelled from the spec: `removeIds` of `utils.ts` (not under `src/`),
spec §4.1 `stripIds`: deep copy removing the `id` key (and only that key)
from every node and nested node. -/
def removeIdsNode : Node → Node
  | .mk t v _ oi cs => .mk t v none oi (removeIdsChildren cs)

/-- Modelled from the spec: children traversal of `removeIds`. -/
def removeIdsChildren : NodeList → NodeList
  | .nil => .nil
  | .cons n ns => .cons (removeIdsNode n) (removeIdsChildren ns)

end

/-- Modelled from the spec: `removeIds` of `utils.ts` applied to a
top-level node sequence. -/
def removeIds (nodes : List Node) : List Node := nodes.map removeIdsNode

mutual

/-- Modelled from the spec: `extractTextValues` of `utils.ts` (not under
`src/`), spec §4.1 `extract`: walk the nodes depth-first, left to right,
collecting string leaves; empty strings are preserved as entries. -/
def extractNodeTexts : Node → List String
  | .mk _ v _ _ cs => v.toList ++ extractChildTexts cs

/-- Modelled from the spec: children traversal of `extractTextValues`. -/
def extractChildTexts : NodeList → List String
  | .nil => []
  | .cons n ns => extractNodeTexts n ++ extractChildTexts ns

end

/-- Modelled from the spec: `extractTextValues` of `utils.ts` applied to a
top-level node sequence. -/
def extractTextValues : List Node → List String
  | [] => []
  | n :: ns => extractNodeTexts n ++ extractTextValues ns

mutual

/-- Modelled from the spec: `reconstructObject` of `utils.ts` (not under
`src/`), spec §4.1 `reassemble`: re-walk the structure in extraction
order, replacing the k-th visited text leaf with the k-th supplied value.
The spec's precondition is that the counts agree (the caller reconciles
lengths first); to stay total the original leaf is kept if the supplied
values run short. Returns the rewritten node and the remaining values. -/
def reconNode : Node → List String → Node × List String
  | .mk t v idA oi cs, vals =>
    match v with
    | some s =>
      let p := reconChildren cs vals.tail
      (.mk t (some (vals.headD s)) idA oi p.1, p.2)
    | none =>
      let p := reconChildren cs vals
      (.mk t none idA oi p.1, p.2)

/-- Modelled from the spec: children traversal of `reconstructObject`. -/
def reconChildren : NodeList → List String → NodeList × List String
  | .nil, vals => (.nil, vals)
  | .cons n ns, vals =>
    let p := reconNode n vals
    let q := reconChildren ns p.2
    (.cons p.1 q.1, q.2)

end

/-- Modelled from the spec: `reconstructObject` of `utils.ts` over a
top-level node sequence, threading the value list left to right. -/
def reconstructObjectAux : List Node → List String → List Node × List String
  | [], vals => ([], vals)
  | n :: ns, vals =>
    let p := reconNode n vals
    let q := reconstructObjectAux ns p.2
    (p.1 :: q.1, q.2)

/-- Modelled from the spec: `reconstructObject` of `utils.ts`. -/
def reconstructObject (nodes : List Node) (vals : List String) : List Node :=
  (reconstructObjectAux nodes vals).1

/-- Modelled from the spec: `insertObjectAtIndex` of `utils.ts` (not under
`src/`), spec §4.1 `insertAt`: insert the node at the 0-based index,
clamped to the sequence bounds; all other elements keep relative order. -/
def insertObjectAtIndex (nodes : List Node) (n : Node) (i : Nat) : List Node :=
  nodes.take i ++ n :: nodes.drop i

/-! ## `ensureArrayLengthsMatch` (StructuredTextTranslation.ts lines 66-85) -/

/-- JS whitespace code points, as consumed by `String.prototype.trim`. -/
def isJsWhitespace (c : Char) : Bool :=
  c.toNat = 32 || c.toNat = 9 || c.toNat = 10 || c.toNat = 13 ||
  c.toNat = 11 || c.toNat = 12 || c.toNat = 160 || c.toNat = 65279 ||
  (8192 ≤ c.toNat && c.toNat ≤ 8202) || c.toNat = 8232 || c.toNat = 8233 ||
  c.toNat = 8239 || c.toNat = 8287 || c.toNat = 12288 || c.toNat = 5760

/-- Models the test `val.trim() === ''`: the string trims to empty exactly
when every character is JS whitespace. -/
def trimIsEmpty (s : String) : Bool := s.toList.all isJsWhitespace

/-- Embeds `ensureArrayLengthsMatch`: pad a short translated list with the
original values at the missing positions (whitespace-only originals are
replaced by the empty string by the `val.trim() === '' ? '' : val`
mapper), truncate a long one. -/
def ensureArrayLengthsMatch (originalValues translatedValues : List String) :
    List String :=
  if originalValues.length = translatedValues.length then translatedValues
  else if translatedValues.length < originalValues.length then
    translatedValues ++
      (originalValues.drop translatedValues.length).map
        (fun val => if trimIsEmpty val then emptyStr else val)
  else translatedValues.take originalValues.length

/-! ## Batch building (StructuredTextTranslation.ts lines 186-201) -/

/-- Embeds the batch-partitioning loop: running state is the open slice
`current` and its character sum `currentLen`; a slice is closed before the
item whose addition would exceed 4800 characters, unless the slice is
still empty. -/
def buildBatchesAux : List String → List String → Nat → List (List String)
  | [], current, _ => if current.length = 0 then [] else [current]
  | v :: rest, current, currentLen =>
    let estimated := currentLen + v.length
    if 4800 < estimated ∧ 0 < current.length then
      current :: buildBatchesAux rest [v] v.length
    else
      buildBatchesAux rest (current ++ [v]) estimated

/-- Embeds `batches` as computed from `textValues`. -/
def buildBatches (textValues : List String) : List (List String) :=
  buildBatchesAux textValues [] 0

/-- Character sum of a slice, the quantity the loop tracks in
`currentLen`. -/
def sumLen (b : List String) : Nat := (b.map String.length).sum

/-- The boundary between two consecutive emitted slices: the head of the
second slice is exactly the item whose addition would have pushed the
first slice over the 4800-character threshold. -/
def batchBoundaryOk (b1 b2 : List String) : Prop :=
  match b2 with
  | [] => True
  | v :: _ => 4800 < sumLen b1 + v.length

/-! ## The per-batch response loop (StructuredTextTranslation.ts lines 205-240) -/

/-- Outcome of `chatComplete` + response cleanup + `JSON.parse` for one
batch, as distinguished by the source: a JSON array, JSON that is not an
array, a `JSON.parse` exception, or `chatComplete` itself throwing. -/
inductive BatchResp : Type where
  | arrayResp (vals : List String)
  | nonArray
  | parseErr
  | exn
deriving DecidableEq

/-- Observable outcome of the batches loop: the accumulated
`allTranslated`, the early `return fieldValue` taken when a response is
JSON but not an array, or an exception escaping to the outer catch. -/
inductive LoopOut : Type where
  | ok (allTranslated : List String)
  | abort
  | exn
deriving DecidableEq

/-- Embeds the `for (const slice of batches)` loop. `chat k` is the
oracle's response for the k-th batch. A `parseErr` batch is skipped
(`continue`), an `exn` propagates to the outer catch, a `nonArray`
response returns the working value immediately, and array responses are
appended to the accumulator in order. -/
def runBatches (chat : Nat → BatchResp) : Nat → List (List String) → LoopOut
  | _, [] => .ok []
  | k, _slice :: rest =>
    match chat k with
    | .exn => .exn
    | .nonArray => .abort
    | .parseErr => runBatches chat (k + 1) rest
    | .arrayResp vs =>
      match runBatches chat (k + 1) rest with
      | .ok acc => .ok (vs ++ acc)
      | .abort => .abort
      | .exn => .exn

/-! ## The orchestrator `translateStructuredTextValue` -/

/-- Shape of a structured-text field value as the orchestrator
distinguishes it: a bare node array, an API-response envelope
`{document: {children}, schema: "dast"}`, or anything else (null or
non-array), which is passed through unchanged. -/
inductive STValue : Type where
  | bare (nodes : List Node)
  | env (children : List Node)
  | invalid

/-- The `blockNodes` reduce (lines 133-141): block nodes tagged with
their pre-filter index. -/
def blockNodesOf (noId : List Node) : List Node :=
  noId.enum.filterMap
    (fun p => if isBlockNode p.2 then some (setOrigIdx p.2 p.1) else none)

/-- The `fieldValueWithoutBlocks` filter (lines 144-146). -/
def nonBlocksOf (noId : List Node) : List Node :=
  noId.filter (fun n => !(isBlockNode n))

/-- The block re-insertion loop (lines 282-290): fold the translated
block nodes into the reassembled sequence at their recorded
`originalIndex`, skipping nodes without one. -/
def insertBlocks (base : List Node) (blocks : List Node) : List Node :=
  blocks.foldl
    (fun acc node =>
      match node.origIdx with
      | some idx => insertObjectAtIndex acc node idx
      | none => acc)
    base

/-- The final packaging (lines 293-309): strip the top-level
`originalIndex` keys and re-wrap in the envelope when the input was an
API response. -/
def finishValue (obj : List Node) (isAPIResponse : Bool) : STValue :=
  let cleaned := obj.map clearOrigIdx
  if isAPIResponse then .env cleaned else .bare cleaned

/-- Embeds the body of `translateStructuredTextValue` after unwrapping:
`nodes` is the working `fieldValue` array, `isAPIResponse` records whether
an envelope was unwrapped. `chat` is the proxy oracle for the batches
loop, and `blockTr` is the generic field-value translator
(`translateFieldValue` of `TranslateField.ts`, not under `src/`), an
oracle that is handed the whole `blockNodes` list and may throw. Every
return of the working value untranslated (`return fieldValue`) yields
`.bare nodes`, because `fieldValue` holds the unwrapped children array at
those points. -/
def translateSTCore (chat : Nat → BatchResp)
    (blockTr : List Node → Except Unit (List Node))
    (nodes : List Node) (isAPIResponse : Bool) : STValue :=
  let noId := removeIds nodes
  let blocks := blockNodesOf noId
  let nonBlocks := nonBlocksOf noId
  let textValues := extractTextValues nonBlocks
  if textValues.length = 0 then .bare nodes
  else
    match runBatches chat 0 (buildBatches textValues) with
    | .exn => .bare nodes
    | .abort => .bare nodes
    | .ok allTranslated =>
      let processed :=
        if allTranslated.length ≠ textValues.length then
          ensureArrayLengthsMatch textValues allTranslated
        else allTranslated
      let reconstructed := reconstructObject nonBlocks processed
      if 0 < blocks.length then
        match blockTr blocks with
        | .error _ => .bare nodes
        | .ok translatedBlocks =>
            finishValue (insertBlocks reconstructed translatedBlocks)
              isAPIResponse
      else finishValue reconstructed isAPIResponse

/-- Embeds `translateStructuredTextValue` (lines 100-320): unwrap the
envelope when `fieldValue?.document?.children?.length` is truthy, pass
through null/non-array/empty values unchanged, and run the core. -/
def translateStructuredTextValue (chat : Nat → BatchResp)
    (blockTr : List Node → Except Unit (List Node)) :
    STValue → STValue
  | .invalid => .invalid
  | .env [] => .env []
  | .env (c :: cs) => translateSTCore chat blockTr (c :: cs) true
  | .bare [] => .bare []
  | .bare (n :: ns) => translateSTCore chat blockTr (n :: ns) false

/-- The value the function's fallback paths actually return: the original
input for bare arrays and pass-through cases, but the unwrapped children
array for a non-empty envelope (the local `fieldValue` is reassigned to
the children before any return). -/
def workingValue : STValue → STValue
  | .env (c :: cs) => .bare (c :: cs)
  | v => v

/-- Text values of a working node array, as the orchestrator computes
them (strip ids, drop block nodes, extract). -/
def textValuesOf (nodes : List Node) : List String :=
  extractTextValues (nonBlocksOf (removeIds nodes))

/-- The node array the orchestrator works on, when translation proceeds
past the early pass-through returns. -/
def unwrapNodes : STValue → Option (List Node)
  | .bare (n :: ns) => some (n :: ns)
  | .env (c :: cs) => some (c :: cs)
  | _ => none

/-! ## `chatComplete` (openaiProxy.ts lines 6-56)

JavaScript values, as far as the response-extraction expression
`(cc?.message?.content || cc?.text) ?? (output_text || ...) ?? ''`
observes them. -/

inductive JsVal : Type where
  | jsUndefined
  | null
  | bool (b : Bool)
  | num (n : Int)
  | str (s : String)
  | arr (xs : List JsVal)
  | obj (fields : List (String × JsVal))

/-- First binding of a key in an object literal. -/
def objLookup : List (String × JsVal) → String → Option JsVal
  | [], _ => none
  | (k, v) :: rest, key => if k = key then some v else objLookup rest key

/-- Optional-chained property access `v?.k`: `undefined` on missing keys
and on every non-object base, as in the source's `?.` chains. -/
def JsVal.getF (v : JsVal) (k : String) : JsVal :=
  match v with
  | .obj fields => (objLookup fields k).getD .jsUndefined
  | _ => .jsUndefined

/-- Optional-chained index access `v?.[i]`. -/
def JsVal.idx (v : JsVal) (i : Nat) : JsVal :=
  match v with
  | .arr xs => (xs.getD i .jsUndefined)
  | _ => .jsUndefined

/-- JS truthiness on the modelled values. -/
def truthy : JsVal → Bool
  | .jsUndefined => false
  | .null => false
  | .bool b => b
  | .num n => n ≠ 0
  | .str s => s ≠ emptyStr
  | .arr _ => true
  | .obj _ => true

/-- JS nullishness (`undefined` or `null`), the test made by `??`. -/
def nullish : JsVal → Bool
  | .jsUndefined => true
  | .null => true
  | _ => false

/-- JS `a || b`. -/
def jsOr (a b : JsVal) : JsVal := if truthy a then a else b

/-- JS `a ?? b`. -/
def jsCoalesce (a b : JsVal) : JsVal := if nullish a then b else a

/-- `data?.choices?.[0]?.message?.content`. -/
def chatContentOf (data : JsVal) : JsVal :=
  (((data.getF choicesKey).idx 0).getF messageKey).getF contentKey

/-- `data?.choices?.[0]?.text`. -/
def chatTextOf (data : JsVal) : JsVal :=
  ((data.getF choicesKey).idx 0).getF textKey

/-- `data?.output_text`. -/
def outputTextOf (data : JsVal) : JsVal := data.getF outputTextKey

/-- `data?.output?.[0]?.content?.[0]?.text`. -/
def deepTextOf (data : JsVal) : JsVal :=
  ((((data.getF outputKey).idx 0).getF contentKey).idx 0).getF textKey

/-- Embeds lines 41-44 of `openaiProxy.ts`: the value `chatComplete`
returns for a parsed 2xx body. -/
def extractContent (data : JsVal) : JsVal :=
  let fromChat := jsOr (chatContentOf data) (chatTextOf data)
  let fromResponses := jsOr (outputTextOf data) (deepTextOf data)
  jsCoalesce fromChat (jsCoalesce fromResponses (.str emptyStr))

/-- What one `fetch` of the proxy does on a given attempt: a response
with a status and a body whose `resp.json()` either parses or throws, a
transport-level `TypeError`, or any other exception. -/
inductive AttemptOutcome : Type where
  | resp (status : Nat) (body : Except Unit JsVal)
  | typeError
  | otherError

/-- `resp.ok`: status in the 200-299 range. -/
def respOk (status : Nat) : Bool := 200 ≤ status && status ≤ 299

/-- The `transientStatus` set of line 23. -/
def transientStatus (s : Nat) : Bool :=
  s = 408 || s = 429 || s = 500 || s = 502 || s = 503 || s = 504

/-- An outcome the retry loop reacts to by retrying (when attempts
remain): a non-ok transient status, or a transport `TypeError`. -/
def retryableOutcome : AttemptOutcome → Bool
  | .resp s _ => !(respOk s) && transientStatus s
  | .typeError => true
  | .otherError => false

/-- Errors `chatComplete` can throw. -/
inductive ChatErr : Type where
  | proxyError (status : Nat)
  | typeErr
  | otherErr
  | jsonErr
deriving DecidableEq

/-- Observable events of one `chatComplete` call: the n-th fetch attempt,
and the backoff delays (`300 * attempt` milliseconds). -/
inductive Ev : Type where
  | fetch (attempt : Nat)
  | delay (ms : Nat)
deriving DecidableEq

/-- Embeds the body of the `for (attempt = 1; attempt <= 3; attempt++)`
loop of `chatComplete`, one list element per remaining attempt number.
Returns the result together with the trace of fetches and delays in
execution order. The unreachable fall-through after the loop (line 55)
is modelled by the empty-list case. -/
def chatGo (outcomes : Nat → AttemptOutcome) :
    List Nat → Except ChatErr JsVal × List Ev
  | [] => (.error .otherErr, [])
  | attempt :: rest =>
    match outcomes attempt with
    | .resp s body =>
      if respOk s then
        match body with
        | .ok data => (.ok (extractContent data), [.fetch attempt])
        | .error _ => (.error .jsonErr, [.fetch attempt])
      else if transientStatus s ∧ attempt < 3 then
        let p := chatGo outcomes rest
        (p.1, .fetch attempt :: .delay (300 * attempt) :: p.2)
      else (.error (.proxyError s), [.fetch attempt])
    | .typeError =>
      if attempt < 3 then
        let p := chatGo outcomes rest
        (p.1, .fetch attempt :: .delay (300 * attempt) :: p.2)
      else (.error .typeErr, [.fetch attempt])
    | .otherError => (.error .otherErr, [.fetch attempt])

/-- Embeds `chatComplete`: up to three attempts. `outcomes n` is what the
n-th `fetch` does. -/
def chatComplete (outcomes : Nat → AttemptOutcome) :
    Except ChatErr JsVal × List Ev :=
  chatGo outcomes [1, 2, 3]

/-! ## The job scheduler (clients.ts lines 99-280)

The scheduler is single-threaded cooperative JS: the cancellation
predicate can only change value at `await` boundaries. Abstract time is a
`Nat` that ticks at those boundaries; the locale-job creation loop (lines
210-274) is synchronous and runs entirely at time 0, while the pool
started by `runPool(jobs, 3)` (lines 108-118) reaches the starts of the
queued jobs at later, increasing times. -/

/-- Embeds the `for (const locale of targetLocales)` creation loop: before
creating each job it evaluates the cancellation predicate (at the loop's
fixed time `t0`, the loop having no suspension points); a `true` answer
makes the whole function return (`none`: no job of this field runs),
otherwise the job for the locale is pushed. -/
def buildLocaleJobs (cancel : Nat → Bool) (t0 : Nat) :
    List Nat → Option (List Nat)
  | [] => some []
  | l :: ls =>
    if cancel t0 then none
    else (buildLocaleJobs cancel t0 ls).map (fun js => l :: js)

/-- Embeds the observable behaviour of `runPool`: the worker loop
`while (i < jobs.length)` claims and runs every queued job with no
cancellation check, and each job closure (lines 249-273) immediately
calls the remote translator. The returned list records, in order, the
pairs (start time, job) — one remote call per started job, with time
advancing by one tick between consecutive job starts. -/
def poolRun : List Nat → Nat → List (Nat × Nat)
  | [], _ => []
  | j :: js, t => (t, j) :: poolRun js (t + 1)

/-- Remote calls issued on behalf of one field's locale jobs: create the
jobs at time 0, then hand them to the pool, whose job starts happen from
time 1 on. -/
def localeJobsRun (cancel : Nat → Bool) (locales : List Nat) :
    List (Nat × Nat) :=
  match buildLocaleJobs cancel 0 locales with
  | none => []
  | some jobs => poolRun jobs 1

/-! ## The pending-write map (clients.ts lines 123-139) -/

/-- Embeds `pendingWrites.set(key, value)` inside `queueFieldWrite`: a JS
`Map` keeps one binding per key in first-insertion order; setting an
existing key replaces its value in place, setting a new key appends. -/
def queueFieldWrite {α : Type} :
    List (String × α) → String → α → List (String × α)
  | [], key, value => [(key, value)]
  | (k0, v0) :: rest, key, value =>
    if k0 = key then (k0, value) :: rest
    else (k0, v0) :: queueFieldWrite rest key value

/-- The pending-write map after a sequence of `queueFieldWrite` calls,
starting from the empty map; `flushWrites` iterates exactly these
entries in order. -/
def buildPendingWrites {α : Type} (ops : List (String × α)) :
    List (String × α) :=
  ops.foldl (fun m p => queueFieldWrite m p.1 p.2) []

/-- Association lookup in the pending map. -/
def lookupKey {α : Type} : List (String × α) → String → Option α
  | [], _ => none
  | (k0, v) :: rest, key => if k0 = key then some v else lookupKey rest key

/-- The value most recently queued for a key in a sequence of
`queueFieldWrite` calls. -/
def lastWrite {α : Type} : List (String × α) → String → Option α
  | [], _ => none
  | (k0, v) :: rest, key =>
    match lastWrite rest key with
    | some w => some w
    | none => if k0 = key then some v else none

/-! ## Statement helpers and spec-side comparison definitions -/

/-- The pad/truncate behaviour of `ensureArrayLengthsMatch` expressed
pointwise: the translated value where one exists, otherwise the original
value at that position (emptied when whitespace-only). -/
def padSpecAt (o t : List String) (i : Nat) : String :=
  match t[i]? with
  | some x => x
  | none =>
    match o[i]? with
    | some y => if trimIsEmpty y then emptyStr else y
    | none => emptyStr

/-- Accumulation with per-batch skipping: the in-order concatenation of
the array responses of the non-failing batches, a failing (`parseErr`)
batch contributing nothing. -/
def skipAccum (chat : Nat → BatchResp) : Nat → List (List String) → List String
  | _, [] => []
  | k, _ :: rest =>
    (match chat k with | .arrayResp vs => vs | _ => []) ++
      skipAccum chat (k + 1) rest

/-- The result of a non-retried (or final) attempt of `chatComplete`. -/
def finalResult : AttemptOutcome → Except ChatErr JsVal
  | .resp s body =>
    if respOk s then
      match body with
      | .ok data => .ok (extractContent data)
      | .error _ => .error .jsonErr
    else .error (.proxyError s)
  | .typeError => .error .typeErr
  | .otherError => .error .otherErr

/-- A field of the response body counts as present when it is not
`undefined`. -/
def presentOpt : JsVal → Option JsVal
  | .jsUndefined => none
  | v => some v

/-- Stated from the claim's words, for comparison with `extractContent`:
the first present value among `choices[0].message.content`,
`choices[0].text`, `output_text` and `output[0].content[0].text`, in that
order. -/
def firstPresentSpec (data : JsVal) : Option JsVal :=
  match presentOpt (chatContentOf data) with
  | some v => some v
  | none =>
    match presentOpt (chatTextOf data) with
    | some v => some v
    | none =>
      match presentOpt (outputTextOf data) with
      | some v => some v
      | none => presentOpt (deepTextOf data)

/-! ## Concrete instances used by counterexamples and witnesses -/

/-- A block node carrying an `id` attribute. -/
def blockNode1 : Node := .mk (some blockTag) none (some helloStr) none .nil

/-- An inline text node. -/
def textNode1 : Node := .mk none (some helloStr) none none .nil

/-- A visibly non-trivial node translation: overwrite the value. -/
def markNode : Node → Node
  | .mk t _ i oi cs => .mk t (some translatedMark) i oi cs

/-- Proxy oracle answering every batch with a JSON array. -/
def chatArr : Nat → BatchResp := fun _ => .arrayResp [xStr]

/-- Proxy oracle throwing on every batch. -/
def chatExn : Nat → BatchResp := fun _ => .exn

/-- Proxy oracle answering valid JSON that is not an array. -/
def chatNonArray : Nat → BatchResp := fun _ => .nonArray

/-- Proxy oracle whose first batch fails to parse and whose later batches
answer arrays. -/
def chatSkip : Nat → BatchResp :=
  fun k => if k = 0 then .parseErr else .arrayResp [xStr]

/-- A non-trivial block translator built from `markNode`. -/
def blockTrMark : List Node → Except Unit (List Node) :=
  fun bs => .ok (bs.map markNode)

/-- Bare block-only document. -/
def inputC1 : STValue := .bare [blockNode1]

/-- Enveloped document with one text node. -/
def inputC2 : STValue := .env [textNode1]

/-- Enveloped block-only document. -/
def inputC3 : STValue := .env [blockNode1]

/-- Enveloped document with one text node. -/
def inputC4 : STValue := .env [textNode1]

/-- A monotone cancellation predicate that becomes true at time 4. -/
def cancel8 : Nat → Bool := fun t => decide (4 ≤ t)

/-- A response body whose `choices[0].message.content` is present but
empty while `output_text` is non-empty. -/
def data9 : JsVal :=
  .obj [(choicesKey, .arr [.obj [(messageKey, .obj [(contentKey, .str emptyStr)])]]),
        (outputTextKey, .str xStr)]

/-- Fetch oracle: every attempt yields a 200 response parsing to
`data9`. -/
def outcomes9 : Nat → AttemptOutcome := fun _ => .resp 200 (.ok data9)

/-- Fetch oracle: every attempt fails with a transport `TypeError`. -/
def allTypeErr : Nat → AttemptOutcome := fun _ => .typeError

/-! ## C5: ensureArrayLengthsMatch -/

/-- C5, counterexample: for the whitespace-only original value a missing
position is padded with the empty string, not with the original value as
the claim states. -/
theorem c5_counterexample :
    ensureArrayLengthsMatch [spaceStr] ([] : List String) = [emptyStr] ∧
    ensureArrayLengthsMatch [spaceStr] ([] : List String) ≠
      ([] : List String) ++ [spaceStr] := by
  refine ⟨by decide, by decide⟩

/-- C5 (amended): `ensureArrayLengthsMatch` returns a list of length
exactly `originalValues.length`; the entry at each position is the
translated value where one exists (equal lengths return the input
unchanged, longer inputs are truncated), and at each missing position the
original value — except that an original value that trims to the empty
string is replaced by the empty string. -/
theorem c5_ensure_lengths (o t : List String) :
    (ensureArrayLengthsMatch o t).length = o.length ∧
    (∀ i, i < o.length → (ensureArrayLengthsMatch o t)[i]? = some (padSpecAt o t i)) := by
  unfold ensureArrayLengthsMatch
  rcases Nat.lt_trichotomy t.length o.length with hlt | heq | hgt
  · rw [if_neg (by omega), if_pos hlt]
    constructor
    · simp
      omega
    · intro i hi
      by_cases hit : i < t.length
      · rw [List.getElem?_append, if_pos hit, List.getElem?_eq_getElem hit]
        simp [padSpecAt, List.getElem?_eq_getElem hit]
      · have hle : t.length ≤ i := Nat.le_of_not_lt hit
        rw [List.getElem?_append, if_neg (by omega)]
        rw [List.getElem?_map, List.getElem?_drop]
        have harith : t.length + (i - t.length) = i := by omega
        rw [harith, List.getElem?_eq_getElem hi]
        simp [padSpecAt, List.getElem?_eq_none_iff.mpr hle,
          List.getElem?_eq_getElem hi]
  · rw [if_pos heq.symm]
    constructor
    · omega
    · intro i hi
      have hit : i < t.length := by omega
      rw [List.getElem?_eq_getElem hit]
      simp [padSpecAt, List.getElem?_eq_getElem hit]
  · rw [if_neg (by omega), if_neg (by omega)]
    constructor
    · simp
      omega
    · intro i hi
      have hit : i < t.length := by omega
      rw [List.getElem?_take, if_pos hi, List.getElem?_eq_getElem hit]
      simp [padSpecAt, List.getElem?_eq_getElem hit]

/-- C5, witness. -/
theorem c5_witness :
    (ensureArrayLengthsMatch [spaceStr] ([] : List String)).length = 1 ∧
    (ensureArrayLengthsMatch [spaceStr] ([] : List String))[0]? =
      some (padSpecAt [spaceStr] [] 0) := by
  refine ⟨(c5_ensure_lengths [spaceStr] []).1, (c5_ensure_lengths [spaceStr] []).2 0 (by decide)⟩

/-! ## C6: batch building -/

theorem buildBatchesAux_join (l : List String) :
    ∀ (cur : List String) (clen : Nat),
      (buildBatchesAux l cur clen).flatten = cur ++ l := by
  induction l with
  | nil =>
    intro cur clen
    unfold buildBatchesAux
    by_cases h : cur.length = 0
    · simp [h, List.length_eq_zero.mp h]
    · simp [h]
  | cons v rest ih =>
    intro cur clen
    unfold buildBatchesAux
    by_cases h : 4800 < clen + v.length ∧ 0 < cur.length
    · simp only [if_pos h, List.flatten_cons, ih]
      simp
    · simp only [if_neg h, ih]
      simp

theorem buildBatchesAux_ne_nil (l : List String) :
    ∀ (cur : List String) (clen : Nat) (b : List String),
      b ∈ buildBatchesAux l cur clen → b ≠ [] := by
  induction l with
  | nil =>
    intro cur clen b hb
    unfold buildBatchesAux at hb
    by_cases h : cur.length = 0
    · simp [h] at hb
    · simp [h] at hb
      subst hb
      intro hcontra
      exact h (by simp [hcontra])
  | cons v rest ih =>
    intro cur clen b hb
    unfold buildBatchesAux at hb
    by_cases h : 4800 < clen + v.length ∧ 0 < cur.length
    · simp only [if_pos h, List.mem_cons] at hb
      rcases hb with rfl | hb
      · exact List.ne_nil_of_length_pos h.2
      · exact ih _ _ _ hb
    · simp only [if_neg h] at hb
      exact ih _ _ _ hb

theorem buildBatchesAux_small (l : List String) :
    ∀ (cur : List String) (clen : Nat), clen = sumLen cur →
      (2 ≤ cur.length → clen ≤ 4800) →
      ∀ b ∈ buildBatchesAux l cur clen, 2 ≤ b.length → sumLen b ≤ 4800 := by
  induction l with
  | nil =>
    intro cur clen hsum hsmall b hb hlen
    unfold buildBatchesAux at hb
    by_cases h : cur.length = 0
    · simp [h] at hb
    · simp [h] at hb
      subst hb
      exact hsum ▸ hsmall hlen
  | cons v rest ih =>
    intro cur clen hsum hsmall b hb hlen
    unfold buildBatchesAux at hb
    by_cases h : 4800 < clen + v.length ∧ 0 < cur.length
    · simp only [if_pos h, List.mem_cons] at hb
      rcases hb with rfl | hb
      · exact hsum ▸ hsmall hlen
      · refine ih [v] v.length (by simp [sumLen]) (by simp) b hb hlen
    · simp only [if_neg h] at hb
      refine ih (cur ++ [v]) (clen + v.length)
        (by simp [sumLen, hsum, List.sum_append]) ?_ b hb hlen
      intro h2
      rcases Nat.lt_or_ge 0 cur.length with hpos | hzero
      · exact Nat.le_of_not_lt (fun hgt => h ⟨hgt, hpos⟩)
      · exfalso
        have hlen2 : (cur ++ [v]).length = cur.length + 1 := by simp
        omega

theorem buildBatchesAux_first (l : List String) :
    ∀ (cur : List String) (clen : Nat), cur ≠ [] →
      ∃ xs tl, buildBatchesAux l cur clen = (cur ++ xs) :: tl := by
  induction l with
  | nil =>
    intro cur clen hcur
    unfold buildBatchesAux
    rw [if_neg (by simpa using hcur)]
    exact ⟨[], [], by simp⟩
  | cons v rest ih =>
    intro cur clen hcur
    unfold buildBatchesAux
    by_cases h : 4800 < clen + v.length ∧ 0 < cur.length
    · exact ⟨[], buildBatchesAux rest [v] v.length, by rw [if_pos h]; simp⟩
    · rw [if_neg h]
      obtain ⟨xs, tl, hx⟩ := ih (cur ++ [v]) (clen + v.length) (by simp)
      exact ⟨[v] ++ xs, tl, by simpa using hx⟩

theorem buildBatchesAux_chain (l : List String) :
    ∀ (cur : List String) (clen : Nat), clen = sumLen cur →
      List.Chain' batchBoundaryOk (buildBatchesAux l cur clen) := by
  induction l with
  | nil =>
    intro cur clen hsum
    unfold buildBatchesAux
    by_cases h : cur.length = 0 <;> simp [h]
  | cons v rest ih =>
    intro cur clen hsum
    unfold buildBatchesAux
    by_cases h : 4800 < clen + v.length ∧ 0 < cur.length
    · rw [if_pos h]
      obtain ⟨xs, tl, hx⟩ := buildBatchesAux_first rest [v] v.length (by simp)
      rw [hx]
      refine List.Chain'.cons ?_ (hx ▸ ih [v] v.length (by simp [sumLen]))
      show batchBoundaryOk cur ([v] ++ xs)
      simpa [batchBoundaryOk, hsum] using h.1
    · rw [if_neg h]
      exact ih (cur ++ [v]) (clen + v.length)
        (by simp [sumLen, hsum, List.sum_append])

/-- C6 (confirmed): batch building emits non-empty contiguous slices whose
in-order concatenation is the input list; an item longer than the
4800-character threshold sits in a slice of its own; and each slice is
closed exactly before the item whose addition would push the running
character sum over the threshold (the head of each following slice
overflows its predecessor). -/
theorem c6_batching (tv : List String) :
    (buildBatches tv).flatten = tv ∧
    (∀ b ∈ buildBatches tv, b ≠ []) ∧
    (∀ b ∈ buildBatches tv, ∀ v ∈ b, 4800 < v.length → b = [v]) ∧
    List.Chain' batchBoundaryOk (buildBatches tv) := by
  refine ⟨by simpa using buildBatchesAux_join tv [] 0,
    fun b hb => buildBatchesAux_ne_nil tv [] 0 b hb, ?_,
    buildBatchesAux_chain tv [] 0 (by simp [sumLen])⟩
  intro b hb v hv hlong
  have hne := buildBatchesAux_ne_nil tv [] 0 b hb
  have hsmall := buildBatchesAux_small tv [] 0 (by simp [sumLen]) (by simp) b hb
  have hvle : v.length ≤ sumLen b := by
    refine List.single_le_sum (fun x _ => Nat.zero_le x) v.length ?_
    exact List.mem_map_of_mem String.length hv
  have hlen1 : b.length = 1 := by
    rcases Nat.lt_or_ge b.length 2 with h2 | h2
    · have := List.length_pos.mpr hne
      omega
    · have := hsmall h2
      omega
  obtain ⟨w, rfl⟩ := List.length_eq_one.mp hlen1
  simp only [List.mem_singleton] at hv
  subst hv
  rfl

/-- C6, witness. -/
theorem c6_witness :
    (buildBatches [abStr]).flatten = [abStr] ∧ [abStr] ≠ ([] : List String) := by
  exact ⟨(c6_batching [abStr]).1, (c6_batching [abStr]).2.1 [abStr] (by decide)⟩

/-! ## C10: the pending-write map -/

theorem queueFieldWrite_keys {α : Type} (m : List (String × α)) (k : String) (v : α) :
    (queueFieldWrite m k v).map Prod.fst =
      if k ∈ m.map Prod.fst then m.map Prod.fst else m.map Prod.fst ++ [k] := by
  induction m with
  | nil => simp [queueFieldWrite]
  | cons p rest ih =>
    obtain ⟨k0, v0⟩ := p
    unfold queueFieldWrite
    by_cases h : k0 = k
    · subst h
      simp
    · simp only [if_neg h, List.map_cons, ih]
      by_cases hmem : k ∈ rest.map Prod.fst
      · simp [hmem, Ne.symm h]
      · simp [hmem, Ne.symm h]

theorem queueFieldWrite_nodup {α : Type} (m : List (String × α)) (k : String) (v : α)
    (h : (m.map Prod.fst).Nodup) : ((queueFieldWrite m k v).map Prod.fst).Nodup := by
  rw [queueFieldWrite_keys]
  by_cases hmem : k ∈ m.map Prod.fst
  · simpa [hmem] using h
  · simp only [if_neg hmem]
    simp [List.nodup_append, h, hmem]

theorem lookupKey_queue_self {α : Type} (m : List (String × α)) (k : String) (v : α) :
    lookupKey (queueFieldWrite m k v) k = some v := by
  induction m with
  | nil => simp [queueFieldWrite, lookupKey]
  | cons p rest ih =>
    obtain ⟨k0, v0⟩ := p
    unfold queueFieldWrite
    by_cases h : k0 = k
    · simp [h, lookupKey]
    · simp [h, lookupKey, ih]

theorem lookupKey_queue_other {α : Type} (m : List (String × α)) (k key : String) (v : α)
    (h : k ≠ key) : lookupKey (queueFieldWrite m k v) key = lookupKey m key := by
  induction m with
  | nil => simp [queueFieldWrite, lookupKey, h]
  | cons p rest ih =>
    obtain ⟨k0, v0⟩ := p
    unfold queueFieldWrite
    by_cases h0 : k0 = k
    · subst h0
      simp [lookupKey, h]
    · simp only [if_neg h0]
      unfold lookupKey
      by_cases hk : k0 = key
      · simp [hk]
      · simp [hk, ih]

theorem foldl_queue_lookup {α : Type} (ops : List (String × α)) :
    ∀ (m : List (String × α)) (key : String),
      lookupKey (ops.foldl (fun acc p => queueFieldWrite acc p.1 p.2) m) key =
        match lastWrite ops key with
        | some w => some w
        | none => lookupKey m key := by
  induction ops with
  | nil => intro m key; simp [lastWrite]
  | cons p ops ih =>
    intro m key
    obtain ⟨k0, v0⟩ := p
    have hcons : lastWrite ((k0, v0) :: ops) key =
        match lastWrite ops key with
        | some w => some w
        | none => if k0 = key then some v0 else none := rfl
    rw [List.foldl_cons, ih, hcons]
    cases hrest : lastWrite ops key with
    | some w => simp
    | none =>
      by_cases h0 : k0 = key
      · subst h0
        simp [lookupKey_queue_self]
      · simp [h0, lookupKey_queue_other _ _ _ _ h0]

theorem foldl_queue_nodup {α : Type} (ops : List (String × α)) :
    ∀ (m : List (String × α)), (m.map Prod.fst).Nodup →
      (((ops.foldl (fun acc p => queueFieldWrite acc p.1 p.2) m)).map Prod.fst).Nodup := by
  induction ops with
  | nil => intro m h; simpa using h
  | cons p ops ih =>
    intro m h
    rw [List.foldl_cons]
    exact ih _ (queueFieldWrite_nodup _ _ _ h)

/-- C10 (confirmed): the pending-write map built by any sequence of
`queueFieldWrite` calls holds at most one entry per key (its key list has
no duplicates), and the value stored at a key is the value most recently
queued for it; a flush, which iterates exactly these entries, therefore
writes each key at most once, with the most recently queued value. -/
theorem c10_pending_writes {α : Type} (ops : List (String × α)) (key : String) :
    ((buildPendingWrites ops).map Prod.fst).Nodup ∧
    lookupKey (buildPendingWrites ops) key = lastWrite ops key := by
  constructor
  · exact foldl_queue_nodup ops [] (by simp)
  · rw [buildPendingWrites, foldl_queue_lookup]
    cases h : lastWrite ops key <;> simp [lookupKey]

/-! ## C8: cancellation in the job scheduler -/

theorem poolRun_map_snd (js : List Nat) : ∀ t, (poolRun js t).map Prod.snd = js := by
  induction js with
  | nil => intro t; rfl
  | cons j rest ih => intro t; simp [poolRun, ih]

theorem poolRun_map_fst (js : List Nat) :
    ∀ t, (poolRun js t).map Prod.fst = List.range' t js.length := by
  induction js with
  | nil => intro t; rfl
  | cons j rest ih => intro t; simp [poolRun, ih, List.range']

theorem buildLocaleJobs_of_false (cancel : Nat → Bool) (h : cancel 0 = false) :
    ∀ ls : List Nat, buildLocaleJobs cancel 0 ls = some ls := by
  intro ls
  induction ls with
  | nil => rfl
  | cons l rest ih => simp [buildLocaleJobs, h, ih]

/-- C8, counterexample: with a monotone cancellation predicate that
becomes true at time 4 (after the jobs were created at time 0), the
fourth locale job still starts, at time 4, and issues its remote call,
although the predicate already returns true at that time. -/
theorem c8_counterexample :
    ((4, 13) ∈ localeJobsRun cancel8 [10, 11, 12, 13]) ∧
    cancel8 4 = true ∧
    (∀ t u, t ≤ u → cancel8 t = true → cancel8 u = true) := by
  refine ⟨by decide, by decide, ?_⟩
  intro t u htu ht
  simp only [cancel8, decide_eq_true_eq] at ht ⊢
  omega

/-- C8 (amended): the cancellation predicate is consulted before each
field and at locale-job creation time; if it is already true when the
locale loop runs, the function returns, no job of the field is created
and no remote call is issued. Once the jobs have been handed to the
pool, however, every one of them starts (at the successive pool times 1,
2, ...) and issues its remote call, regardless of any later value of the
predicate. -/
theorem c8_cancellation (cancel : Nat → Bool) (locales : List Nat) :
    (cancel 0 = true → localeJobsRun cancel locales = []) ∧
    (cancel 0 = false →
      (localeJobsRun cancel locales).map Prod.snd = locales ∧
      (localeJobsRun cancel locales).map Prod.fst = List.range' 1 locales.length) := by
  constructor
  · intro h
    cases locales with
    | nil => rfl
    | cons l rest => simp [localeJobsRun, buildLocaleJobs, h]
  · intro h
    rw [localeJobsRun, buildLocaleJobs_of_false cancel h]
    exact ⟨poolRun_map_snd locales 1, poolRun_map_fst locales 1⟩

/-- C8, witness. -/
theorem c8_witness :
    localeJobsRun (fun _ => true) [5] = [] ∧
    (localeJobsRun cancel8 [10, 11, 12, 13]).map Prod.snd = [10, 11, 12, 13] := by
  exact ⟨(c8_cancellation (fun _ => true) [5]).1 rfl,
    ((c8_cancellation cancel8 [10, 11, 12, 13]).2 (by decide)).1⟩

/-! ## C7: the retry loop of chatComplete -/

theorem chatGo_cons (outcomes : Nat → AttemptOutcome) (a : Nat) (rest : List Nat) :
    chatGo outcomes (a :: rest) =
      if retryableOutcome (outcomes a) = true ∧ a < 3 then
        ((chatGo outcomes rest).1,
          .fetch a :: .delay (300 * a) :: (chatGo outcomes rest).2)
      else (finalResult (outcomes a), [.fetch a]) := by
  cases h : outcomes a with
  | resp s body =>
    by_cases h1 : respOk s
    · simp [chatGo, h, h1, retryableOutcome, finalResult]
      cases body <;> simp
    · by_cases h2 : transientStatus s
      · by_cases h3 : a < 3
        · simp [chatGo, h, h1, h2, h3, retryableOutcome, finalResult]
        · simp [chatGo, h, h1, h2, h3, retryableOutcome, finalResult]
      · simp [chatGo, h, h1, h2, retryableOutcome, finalResult]
  | typeError =>
    by_cases h3 : a < 3
    · simp [chatGo, h, h3, retryableOutcome]
    · simp [chatGo, h, h3, retryableOutcome, finalResult]
  | otherError => simp [chatGo, h, retryableOutcome, finalResult]

theorem retryable_finalResult_error (o : AttemptOutcome)
    (h : retryableOutcome o = true) : ∃ e, finalResult o = .error e := by
  cases o with
  | resp s body =>
    simp only [retryableOutcome, Bool.and_eq_true, Bool.not_eq_true'] at h
    exact ⟨.proxyError s, by simp [finalResult, h.1]⟩
  | typeError => exact ⟨.typeErr, rfl⟩
  | otherError => simp [retryableOutcome] at h

/-- C7 (confirmed): `chatComplete` makes its first fetch attempt
unconditionally and at most three attempts in total (attempts are
numbered 1 to 3 and none repeats); attempt `a + 1` happens only when
attempt `a` ended in a retryable outcome — a response status among
408, 429, 500, 502, 503, 504, or a transport `TypeError` — and is then
preceded by the linear-backoff delay of `300 * a` milliseconds; after a
non-retryable outcome no further attempt is made (the result propagates
without retry); and if all three attempts end retryably the call throws
after exhausting its retries. -/
theorem c7_retry (outcomes : Nat → AttemptOutcome) :
    (Ev.fetch 1 ∈ (chatComplete outcomes).2) ∧
    (∀ a, Ev.fetch a ∈ (chatComplete outcomes).2 → 1 ≤ a ∧ a ≤ 3) ∧
    (∀ a, (chatComplete outcomes).2.count (Ev.fetch a) ≤ 1) ∧
    (∀ a, 1 ≤ a → Ev.fetch (a + 1) ∈ (chatComplete outcomes).2 →
      retryableOutcome (outcomes a) = true ∧
      Ev.delay (300 * a) ∈ (chatComplete outcomes).2) ∧
    (∀ a, Ev.fetch a ∈ (chatComplete outcomes).2 →
      retryableOutcome (outcomes a) = false →
      Ev.fetch (a + 1) ∉ (chatComplete outcomes).2) ∧
    ((retryableOutcome (outcomes 1) = true ∧ retryableOutcome (outcomes 2) = true ∧
        retryableOutcome (outcomes 3) = true) →
      ∃ e, (chatComplete outcomes).1 = .error e) := by
  have h3 : chatGo outcomes [3] = (finalResult (outcomes 3), [.fetch 3]) := by
    rw [chatGo_cons, if_neg (by omega)]
  by_cases r1 : retryableOutcome (outcomes 1) = true
  · by_cases r2 : retryableOutcome (outcomes 2) = true
    · have htr : chatComplete outcomes =
          (finalResult (outcomes 3),
            [.fetch 1, .delay 300, .fetch 2, .delay 600, .fetch 3]) := by
        rw [chatComplete, chatGo_cons, if_pos ⟨r1, by omega⟩,
          chatGo_cons, if_pos ⟨r2, by omega⟩, h3]
      rw [htr]
      refine ⟨by simp, ?_, ?_, ?_, ?_, ?_⟩
      · intro a ha
        simp only [List.mem_cons, List.not_mem_nil, or_false] at ha
        rcases ha with h | h | h | h | h <;> first
          | (injection h with h; omega)
          | exact absurd h (by simp)
      · intro a
        simp [List.count_cons]
        split_ifs <;> omega
      · intro a ha1 ha
        simp only [List.mem_cons, List.not_mem_nil, or_false] at ha
        rcases ha with h | h | h | h | h <;> first
          | (injection h with h;
             (first
               | (have : a = 1 := by omega
                  subst this
                  exact ⟨r1, by norm_num⟩)
               | (have : a = 2 := by omega
                  subst this
                  exact ⟨r2, by norm_num⟩)))
          | exact absurd h (by simp)
      · intro a ha hfalse
        simp only [List.mem_cons, List.not_mem_nil, or_false] at ha
        rcases ha with h | h | h | h | h <;> first
          | (injection h with h;
             first
               | (exfalso; omega)
               | (have : a = 1 := by omega
                  subst this
                  rw [r1] at hfalse; exact absurd hfalse (by simp))
               | (have : a = 2 := by omega
                  subst this
                  rw [r2] at hfalse; exact absurd hfalse (by simp))
               | (have : a = 3 := by omega
                  subst this
                  simp))
          | exact absurd h (by simp)
      · intro hr
        exact retryable_finalResult_error _ hr.2.2
    · have htr : chatComplete outcomes =
          (finalResult (outcomes 2), [.fetch 1, .delay 300, .fetch 2]) := by
        rw [chatComplete, chatGo_cons, if_pos ⟨r1, by omega⟩,
          chatGo_cons, if_neg (by simp [r2])]
      rw [htr]
      refine ⟨by simp, ?_, ?_, ?_, ?_, ?_⟩
      · intro a ha
        simp only [List.mem_cons, List.not_mem_nil, or_false] at ha
        rcases ha with h | h | h <;> first
          | (injection h with h; omega)
          | exact absurd h (by simp)
      · intro a
        simp [List.count_cons]
        split_ifs <;> omega
      · intro a ha1 ha
        simp only [List.mem_cons, List.not_mem_nil, or_false] at ha
        rcases ha with h | h | h <;> first
          | (injection h with h;
             have : a = 1 := by omega
             subst this
             exact ⟨r1, by norm_num⟩)
          | exact absurd h (by simp)
      · intro a ha hfalse
        simp only [List.mem_cons, List.not_mem_nil, or_false] at ha
        rcases ha with h | h | h <;> first
          | (injection h with h;
             first
               | (have : a = 1 := by omega
                  subst this
                  rw [r1] at hfalse; exact absurd hfalse (by simp))
               | (have : a = 2 := by omega
                  subst this
                  simp))
          | exact absurd h (by simp)
      · intro hr
        exact absurd hr.2.1 (by simp [r2])
  · have htr : chatComplete outcomes =
        (finalResult (outcomes 1), [.fetch 1]) := by
      rw [chatComplete, chatGo_cons, if_neg (by simp [r1])]
    rw [htr]
    refine ⟨by simp, ?_, ?_, ?_, ?_, ?_⟩
    · intro a ha
      simp only [List.mem_cons, List.not_mem_nil, or_false] at ha
      injection ha with h
      omega
    · intro a
      simp [List.count_cons]
      split_ifs <;> omega
    · intro a ha1 ha
      simp only [List.mem_cons, List.not_mem_nil, or_false] at ha
      injection ha with h
      omega
    · intro a ha hfalse
      simp only [List.mem_cons, List.not_mem_nil, or_false] at ha
      injection ha with h
      have : a = 1 := by omega
      subst this
      simp
    · intro hr
      exact absurd hr.1 (by simp [r1])

/-- C7, witness. -/
theorem c7_witness :
    retryableOutcome (allTypeErr 1) = true ∧
    Ev.delay 300 ∈ (chatComplete allTypeErr).2 ∧
    (∃ e, (chatComplete allTypeErr).1 = .error e) := by
  refine ⟨((c7_retry allTypeErr).2.2.2.1 1 (by omega) (by decide)).1,
    (by simpa using ((c7_retry allTypeErr).2.2.2.1 1 (by omega) (by decide)).2),
    (c7_retry allTypeErr).2.2.2.2.2 ⟨rfl, rfl, rfl⟩⟩

/-! ## C9: response-field extraction -/

theorem truthy_not_nullish (v : JsVal) (h : truthy v = true) : nullish v = false := by
  cases v <;> simp_all [truthy, nullish]

/-- C9, counterexample: a 2xx body in which `choices[0].message.content`
is present (the empty string) while `output_text` is `"X"`: the first
present field is the empty content string, but `chatComplete` skips the
falsy empty string and returns `"X"`. -/
theorem c9_counterexample :
    extractContent data9 = .str xStr ∧
    firstPresentSpec data9 = some (.str emptyStr) ∧
    JsVal.str xStr ≠ JsVal.str emptyStr := by
  refine ⟨rfl, rfl, ?_⟩
  intro h
  have := JsVal.str.inj h
  exact absurd this (by decide)

/-- C9 (amended): for a 2xx response whose body parses to `data`,
`chatComplete` returns `(choices[0].message.content || choices[0].text)`
when that is non-nullish, otherwise
`(output_text || output[0].content[0].text)` when that is non-nullish,
otherwise the empty string — i.e. a truthiness-based selection in which a
present-but-empty `message.content` is skipped, while a
present-but-empty `choices[0].text` short-circuits the alternate
fields. -/
theorem c9_extraction :
    (∀ data : JsVal,
      extractContent data =
        if truthy (chatContentOf data) = true then chatContentOf data
        else if nullish (chatTextOf data) = false then chatTextOf data
        else if truthy (outputTextOf data) = true then outputTextOf data
        else if nullish (deepTextOf data) = false then deepTextOf data
        else .str emptyStr) ∧
    (∀ (outcomes : Nat → AttemptOutcome) (s : Nat) (data : JsVal),
      outcomes 1 = .resp s (.ok data) → respOk s = true →
      (chatComplete outcomes).1 = .ok (extractContent data)) := by
  constructor
  · intro data
    by_cases hc : truthy (chatContentOf data) = true
    · simp [extractContent, jsOr, jsCoalesce, hc, truthy_not_nullish _ hc]
    · replace hc : truthy (chatContentOf data) = false := by simpa using hc
      by_cases ht : nullish (chatTextOf data) = false
      · simp [extractContent, jsOr, jsCoalesce, hc, ht]
      · replace ht : nullish (chatTextOf data) = true := by simpa using ht
        by_cases ho : truthy (outputTextOf data) = true
        · simp [extractContent, jsOr, jsCoalesce, hc, ht, ho,
            truthy_not_nullish _ ho]
        · replace ho : truthy (outputTextOf data) = false := by simpa using ho
          by_cases hd : nullish (deepTextOf data) = false
          · simp [extractContent, jsOr, jsCoalesce, hc, ht, ho, hd]
          · replace hd : nullish (deepTextOf data) = true := by simpa using hd
            simp [extractContent, jsOr, jsCoalesce, hc, ht, ho, hd]
  · intro outcomes s data hout hok
    rw [chatComplete]
    unfold chatGo
    rw [hout]
    simp [hok]

/-- C9, witness. -/
theorem c9_witness : (chatComplete outcomes9).1 = .ok (extractContent data9) := by
  exact c9_extraction.2 outcomes9 200 data9 rfl (by decide)

/-! ## Shared lemmas about the orchestrator -/

theorem buildBatchesAux_ne_nil_strong (l : List String) :
    ∀ (cur : List String) (clen : Nat), cur ≠ [] ∨ l ≠ [] →
      buildBatchesAux l cur clen ≠ [] := by
  induction l with
  | nil =>
    intro cur clen h
    have hcur : cur ≠ [] := h.resolve_right (fun hc => hc rfl)
    unfold buildBatchesAux
    rw [if_neg (by simpa using hcur)]
    simp
  | cons v rest ih =>
    intro cur clen _
    unfold buildBatchesAux
    by_cases h : 4800 < clen + v.length ∧ 0 < cur.length
    · simp [if_pos h]
    · rw [if_neg h]
      exact ih (cur ++ [v]) (clen + v.length) (Or.inl (by simp))

theorem buildBatches_ne_nil (tv : List String) (h : tv ≠ []) :
    buildBatches tv ≠ [] :=
  buildBatchesAux_ne_nil_strong tv [] 0 (Or.inr h)

theorem core_zero_text (chat : Nat → BatchResp)
    (blockTr : List Node → Except Unit (List Node)) (nodes : List Node)
    (isAPI : Bool) (h : textValuesOf nodes = []) :
    translateSTCore chat blockTr nodes isAPI = .bare nodes := by
  have h' : extractTextValues (nonBlocksOf (removeIds nodes)) = [] := h
  simp only [translateSTCore, h']
  simp

theorem core_exn (chat : Nat → BatchResp)
    (blockTr : List Node → Except Unit (List Node)) (nodes : List Node)
    (isAPI : Bool) (h : ∀ k, chat k = BatchResp.exn) :
    translateSTCore chat blockTr nodes isAPI = .bare nodes := by
  by_cases ht : textValuesOf nodes = []
  · exact core_zero_text chat blockTr nodes isAPI ht
  · have ht' : extractTextValues (nonBlocksOf (removeIds nodes)) ≠ [] := ht
    obtain ⟨b, rest, hb⟩ :=
      List.exists_cons_of_ne_nil (buildBatches_ne_nil _ ht')
    simp only [translateSTCore, hb]
    rw [if_neg (by simpa using ht')]
    simp [runBatches, h 0]

theorem core_abort (chat : Nat → BatchResp)
    (blockTr : List Node → Except Unit (List Node)) (nodes : List Node)
    (isAPI : Bool)
    (h : runBatches chat 0 (buildBatches (textValuesOf nodes)) = .abort) :
    translateSTCore chat blockTr nodes isAPI = .bare nodes := by
  by_cases ht : textValuesOf nodes = []
  · exact core_zero_text chat blockTr nodes isAPI ht
  · have ht' : extractTextValues (nonBlocksOf (removeIds nodes)) ≠ [] := ht
    have h' : runBatches chat 0
        (buildBatches (extractTextValues (nonBlocksOf (removeIds nodes)))) =
        .abort := h
    simp only [translateSTCore, h']
    rw [if_neg (by simpa using ht')]

theorem runBatches_allOk (chat : Nat → BatchResp)
    (h : ∀ k, ∃ vs, chat k = BatchResp.arrayResp vs) :
    ∀ (bs : List (List String)) (k : Nat), ∃ acc, runBatches chat k bs = .ok acc := by
  intro bs
  induction bs with
  | nil => intro k; exact ⟨[], rfl⟩
  | cons b rest ih =>
    intro k
    obtain ⟨vs, hv⟩ := h k
    obtain ⟨acc, ha⟩ := ih (k + 1)
    exact ⟨vs ++ acc, by simp [runBatches, hv, ha]⟩

theorem core_bare (chat : Nat → BatchResp)
    (blockTr : List Node → Except Unit (List Node)) (nodes : List Node) :
    ∃ ms, translateSTCore chat blockTr nodes false = .bare ms := by
  simp only [translateSTCore]
  split
  · exact ⟨nodes, rfl⟩
  · split
    · exact ⟨nodes, rfl⟩
    · exact ⟨nodes, rfl⟩
    · split
      · split
        · exact ⟨nodes, rfl⟩
        · exact ⟨_, rfl⟩
      · exact ⟨_, rfl⟩

theorem core_env_success (chat : Nat → BatchResp)
    (blockTr : List Node → Except Unit (List Node)) (nodes : List Node)
    (hchat : ∀ k, ∃ vs, chat k = BatchResp.arrayResp vs)
    (hblock : ∀ bs, ∃ out, blockTr bs = Except.ok out)
    (ht : textValuesOf nodes ≠ []) :
    ∃ ds, translateSTCore chat blockTr nodes true = .env ds := by
  have ht' : extractTextValues (nonBlocksOf (removeIds nodes)) ≠ [] := ht
  obtain ⟨acc, hacc⟩ := runBatches_allOk chat hchat
    (buildBatches (extractTextValues (nonBlocksOf (removeIds nodes)))) 0
  simp only [translateSTCore, hacc]
  rw [if_neg (by simpa using ht')]
  split
  · obtain ⟨out, hout⟩ := hblock (blockNodesOf (removeIds nodes))
    rw [hout]
    exact ⟨_, rfl⟩
  · exact ⟨_, rfl⟩

/-! ## C1: block-only documents -/

/-- C1, counterexample: for the bare block-only document `[blockNode1]`
(no extractable text), `translateStructuredTextValue` returns its input
untranslated — the block translator, although it would visibly change
the node, is never applied. -/
theorem c1_counterexample :
    translateStructuredTextValue chatArr blockTrMark inputC1 = inputC1 ∧
    blockTrMark [blockNode1] = Except.ok [markNode blockNode1] ∧
    markNode blockNode1 ≠ blockNode1 := by
  refine ⟨rfl, rfl, ?_⟩
  intro h
  injection h with h1 h2 h3 h4 h5
  exact Option.noConfusion h2

/-- C1 (amended): whenever text extraction yields zero text values — in
particular for documents consisting only of block nodes — the function
returns the working value unchanged (the unwrapped children array for an
envelope, the input otherwise), for every proxy oracle and every block
translator: the block nodes are not translated. -/
theorem c1_zero_text (chat : Nat → BatchResp)
    (blockTr : List Node → Except Unit (List Node)) (input : STValue)
    (h : ∀ nodes, unwrapNodes input = some nodes → textValuesOf nodes = []) :
    translateStructuredTextValue chat blockTr input = workingValue input := by
  cases input with
  | invalid => rfl
  | env cs =>
    cases cs with
    | nil => rfl
    | cons c cs => exact core_zero_text chat blockTr (c :: cs) true (h _ rfl)
  | bare ns =>
    cases ns with
    | nil => rfl
    | cons n ns => exact core_zero_text chat blockTr (n :: ns) false (h _ rfl)

/-- C1, witness. -/
theorem c1_witness :
    translateStructuredTextValue chatArr blockTrMark inputC1 =
      workingValue inputC1 := by
  refine c1_zero_text chatArr blockTrMark inputC1 ?_
  intro nodes h
  have h' : some [blockNode1] = some nodes := h
  injection h' with h'
  subst h'
  rfl

/-! ## C2: the exception fallback -/

/-- C2, counterexample: the input is the envelope `inputC2`; an exception
raised by the batch-translation call is caught, but the function returns
the bare children array, not the original enveloped field value it was
given. -/
theorem c2_counterexample :
    translateStructuredTextValue chatExn blockTrMark inputC2 =
      .bare [textNode1] ∧
    STValue.bare [textNode1] ≠ inputC2 := by
  exact ⟨rfl, fun h => STValue.noConfusion h⟩

/-- C2 (amended): an exception raised by the remote batch-translation
call is caught and the function returns the untranslated working value —
equal to the value it was given for bare arrays and pass-through inputs,
but the unwrapped children array (not the original envelope) for
enveloped inputs. -/
theorem c2_exception_fallback (chat : Nat → BatchResp)
    (blockTr : List Node → Except Unit (List Node)) (input : STValue)
    (h : ∀ k, chat k = BatchResp.exn) :
    translateStructuredTextValue chat blockTr input = workingValue input := by
  cases input with
  | invalid => rfl
  | env cs =>
    cases cs with
    | nil => rfl
    | cons c cs => exact core_exn chat blockTr (c :: cs) true h
  | bare ns =>
    cases ns with
    | nil => rfl
    | cons n ns => exact core_exn chat blockTr (n :: ns) false h

/-- C2, witness. -/
theorem c2_witness :
    translateStructuredTextValue chatExn blockTrMark inputC2 =
      workingValue inputC2 :=
  c2_exception_fallback chatExn blockTrMark inputC2 (fun _ => rfl)

/-! ## C3: envelope round-tripping -/

/-- C3, counterexample: the enveloped block-only document `inputC3` takes
the zero-text return path and comes back as a bare node array — not as
an envelope, although the input was an envelope with non-empty
children. -/
theorem c3_counterexample :
    translateStructuredTextValue chatArr blockTrMark inputC3 =
      .bare [blockNode1] ∧
    (∀ ds, STValue.bare [blockNode1] ≠ STValue.env ds) := by
  exact ⟨rfl, fun ds h => STValue.noConfusion h⟩

/-- C3 (amended): a bare node-array input comes back bare on every path;
an enveloped input is re-wrapped in an envelope on the successful
translation path (array responses throughout, block translation
succeeding, some text extracted), but the zero-text early return — and
likewise the error fallbacks — return the bare unwrapped children array
instead of an envelope. -/
theorem c3_envelope (chat : Nat → BatchResp)
    (blockTr : List Node → Except Unit (List Node)) :
    (∀ ns : List Node, ∃ ms,
      translateStructuredTextValue chat blockTr (.bare ns) = .bare ms) ∧
    (∀ c cs, textValuesOf (c :: cs) = [] →
      translateStructuredTextValue chat blockTr (.env (c :: cs)) =
        .bare (c :: cs)) ∧
    (∀ c cs, (∀ k, ∃ vs, chat k = BatchResp.arrayResp vs) →
      (∀ bs, ∃ out, blockTr bs = Except.ok out) →
      textValuesOf (c :: cs) ≠ [] →
      ∃ ds, translateStructuredTextValue chat blockTr (.env (c :: cs)) =
        .env ds) := by
  refine ⟨?_, ?_, ?_⟩
  · intro ns
    cases ns with
    | nil => exact ⟨[], rfl⟩
    | cons n ns => exact core_bare chat blockTr (n :: ns)
  · intro c cs h
    exact core_zero_text chat blockTr (c :: cs) true h
  · intro c cs hchat hblock ht
    exact core_env_success chat blockTr (c :: cs) hchat hblock ht

/-- C3, witness. -/
theorem c3_witness :
    (∃ ms, translateStructuredTextValue chatArr blockTrMark
      (.bare [textNode1]) = .bare ms) ∧
    (∃ ds, translateStructuredTextValue chatArr blockTrMark
      (.env [textNode1]) = .env ds) := by
  refine ⟨(c3_envelope chatArr blockTrMark).1 [textNode1],
    (c3_envelope chatArr blockTrMark).2.2 textNode1 []
      (fun k => ⟨[xStr], rfl⟩) (fun bs => ⟨bs.map markNode, rfl⟩) ?_⟩
  intro h
  have h' : [helloStr] = ([] : List String) := h
  exact List.noConfusion h'

/-! ## C4: abort versus skip in the batch loop -/

/-- C4, counterexample: for the enveloped input `inputC4`, a response
that parses as JSON but is not an array aborts the field translation,
but what is returned is the bare children array — not the original
field value the function was given. -/
theorem c4_counterexample :
    translateStructuredTextValue chatNonArray blockTrMark inputC4 =
      .bare [textNode1] ∧
    STValue.bare [textNode1] ≠ inputC4 := by
  exact ⟨rfl, fun h => STValue.noConfusion h⟩

/-- C4 (amended): a response that parses as JSON but is not an array
aborts the whole field translation — `runBatches` answers `.abort` as
soon as such a batch is reached, and the orchestrator then returns the
untranslated working value (the input itself for a bare array, the
unwrapped children array for an envelope); whereas a response that
throws on JSON parsing only skips that batch's contribution: with every
batch either parsing to an array or throwing, the loop still processes
all remaining batches and accumulates their outputs in order
(`skipAccum`). -/
theorem c4_batch_protocol (chat : Nat → BatchResp) :
    (∀ (k : Nat) (bs : List (List String)), bs ≠ [] → chat k = .nonArray →
      runBatches chat k bs = .abort) ∧
    (∀ (bs : List (List String)) (k : Nat),
      (∀ i, i < bs.length →
        chat (k + i) = .parseErr ∨ ∃ vs, chat (k + i) = .arrayResp vs) →
      runBatches chat k bs = .ok (skipAccum chat k bs)) ∧
    (∀ (blockTr : List Node → Except Unit (List Node)) (input : STValue)
        (nodes : List Node), unwrapNodes input = some nodes →
      runBatches chat 0 (buildBatches (textValuesOf nodes)) = .abort →
      translateStructuredTextValue chat blockTr input = workingValue input) := by
  refine ⟨?_, ?_, ?_⟩
  · intro k bs hbs hk
    obtain ⟨b, rest, rfl⟩ := List.exists_cons_of_ne_nil hbs
    simp [runBatches, hk]
  · intro bs
    induction bs with
    | nil => intro k h; rfl
    | cons b rest ih =>
      intro k h
      have h0 := h 0 (by simp)
      rw [Nat.add_zero] at h0
      rcases h0 with hp | ⟨vs, hv⟩
      · have hrec := ih (k + 1) ?_
        · simp [runBatches, hp, hrec, skipAccum]
        · intro i hi
          have := h (i + 1) (by simpa using Nat.succ_lt_succ hi)
          rwa [show k + (i + 1) = k + 1 + i by omega] at this
      · have hrec := ih (k + 1) ?_
        · simp [runBatches, hv, hrec, skipAccum]
        · intro i hi
          have := h (i + 1) (by simpa using Nat.succ_lt_succ hi)
          rwa [show k + (i + 1) = k + 1 + i by omega] at this
  · intro blockTr input nodes hun habort
    cases input with
    | invalid => exact Option.noConfusion hun
    | env cs =>
      cases cs with
      | nil => exact Option.noConfusion hun
      | cons c cs =>
        have h' : some (c :: cs) = some nodes := hun
        injection h' with h'
        subst h'
        exact core_abort chat blockTr (c :: cs) true habort
    | bare ns =>
      cases ns with
      | nil => exact Option.noConfusion hun
      | cons n ns =>
        have h' : some (n :: ns) = some nodes := hun
        injection h' with h'
        subst h'
        exact core_abort chat blockTr (n :: ns) false habort

/-- C4, witness. -/
theorem c4_witness :
    runBatches chatNonArray 0 [[helloStr]] = .abort ∧
    runBatches chatSkip 0 [[helloStr], [abStr]] =
      .ok (skipAccum chatSkip 0 [[helloStr], [abStr]]) := by
  refine ⟨(c4_batch_protocol chatNonArray).1 0 [[helloStr]] (by simp) rfl,
    (c4_batch_protocol chatSkip).2.1 [[helloStr], [abStr]] 0 ?_⟩
  intro i hi
  match i with
  | 0 => exact Or.inl rfl
  | 1 => exact Or.inr ⟨[xStr], rfl⟩
  | (j + 2) =>
    exfalso
    have hlen : [[helloStr], [abStr]].length = 2 := rfl
    omega
